import Mathlib

attribute [local semireducible] Rat.add Rat.sub Rat.mul Rat.inv Rat.ofScientific

/-!
Verification of the donation-record engine of the nspolidonationsCA
repository (src/src/App.js, current revision: the version that merges the
provincial and federal CSV sources).  The JavaScript functions
`filteredData`, `sortData`, `getRowColor`, `getPartyTotals` and the
federal-source normalization callback are shallowly embedded below as
executable Lean definitions over `List Char` / `String`, with JavaScript
numbers modelled as exact rationals (`ℚ`); non-finite parses are modelled
as parse failures.
-/

namespace NSPoli

/-- ASCII whitespace characters matched by the JavaScript regex class
backslash-s (space, tab, line feed, carriage return, vertical tab, form
feed); the Unicode space classes never occur in this data set. -/
def isWsChar (c : Char) : Bool :=
  c = ' ' || c = '\t' || c = '\n' || c = '\r' || c = '\x0b' || c = '\x0c'

/-- ASCII lower-casing of one character, the effect of JavaScript
`toLowerCase()` on the character set of this data. -/
def lowerChar (c : Char) : Char :=
  if 65 ≤ c.toNat && c.toNat ≤ 90 then Char.ofNat (c.toNat + 32) else c

/-- ASCII lower-casing of a string, the effect of JavaScript
`toLowerCase()` on the strings of this data set. -/
def lowerStr (s : String) : String :=
  String.mk (s.data.map lowerChar)

/-- Test whether the first list is an initial segment of the second,
character by character. -/
def isInitialSeg : List Char → List Char → Bool
  | [], _ => true
  | _ :: _, [] => false
  | p :: ps, h :: hs => p = h && isInitialSeg ps hs

/-- Substring containment on character lists: `containsSub pat hay` is
true when `pat` occurs contiguously inside `hay`.  This is the semantics
of JavaScript `hay.includes(pat)` for the ASCII data handled here. -/
def containsSub (pat : List Char) : List Char → Bool
  | [] => isInitialSeg pat []
  | h :: hs => isInitialSeg pat (h :: hs) || containsSub pat hs

/-- String-level wrapper for `containsSub`: JavaScript
`s.includes(pat)`. -/
def strContains (s pat : String) : Bool :=
  containsSub pat.data s.data

/-- The canonical record shape produced by the normalizer: the eight
fixed columns Last Name, First Name, Postal Code, City, Party,
Specific Campaign, Date, Donation, all strings. -/
structure Record where
  lastName : String
  firstName : String
  postalCode : String
  city : String
  party : String
  specificCampaign : String
  date : String
  donation : String
deriving DecidableEq

/-- JavaScript `q.split(/\s+/, 2)`: split on maximal whitespace runs and
keep at most the first two pieces.  A leading run yields an empty first
piece and a trailing run yields an empty second piece, exactly as the
JavaScript engine does. -/
def jsSplitWs2 (s : String) : List String :=
  let cs := s.data
  let p1 := cs.takeWhile (fun c => !isWsChar c)
  let rest := cs.dropWhile (fun c => !isWsChar c)
  match rest with
  | [] => [String.mk p1]
  | _ :: _ =>
      let afterWs := rest.dropWhile isWsChar
      [String.mk p1, String.mk (afterWs.takeWhile (fun c => !isWsChar c))]

/-- The per-row predicate of the `filteredData` memo in App.js: when the
destructured `firstNameSearch` is absent or empty (falsy) only the last
name is tested, otherwise both names are tested by lower-cased substring
containment. -/
def matchesQuery (lastTok firstTok : String) (r : Record) : Bool :=
  if firstTok = "" then
    strContains (lowerStr r.lastName) lastTok
  else
    strContains (lowerStr r.lastName) lastTok &&
      strContains (lowerStr r.firstName) firstTok

/-- The destructured `lastNameSearch` of App.js: the first piece of the
split, lower-cased. -/
def lastTokOf (q : String) : String :=
  ((jsSplitWs2 q).map lowerStr).headD ""

/-- The destructured `firstNameSearch` of App.js: the second piece of the
split, lower-cased; an absent piece (JavaScript `undefined`) and the empty
piece are both falsy and are represented by the empty string. -/
def firstTokOf (q : String) : String :=
  (((jsSplitWs2 q).map lowerStr).get? 1).getD ""

/-- The `filteredData` memo of App.js: a falsy (empty) query yields `[]`;
otherwise the query is split by `split(/\s+/, 2)`, the pieces are
lower-cased, and the records are filtered by `matchesQuery`. -/
def filteredData (q : String) (records : List Record) : List Record :=
  if q = "" then []
  else records.filter (matchesQuery (lastTokOf q) (firstTokOf q))

theorem containsSub_nil_left (l : List Char) : containsSub [] l = true := by
  cases l <;> simp [containsSub, isInitialSeg]

theorem strContains_empty (s : String) : strContains s "" = true :=
  containsSub_nil_left s.data

/-- Numeric value of a list of decimal digit characters, most significant
first. -/
def digitsVal (ds : List Char) : Nat :=
  ds.foldl (fun n c => 10 * n + (c.toNat - 48)) 0

/-- Exact-rational model of JavaScript `parseFloat`: skip leading
whitespace, read an optional sign, then decimal digits with an optional
fractional part and an optional exponent part, ignoring any trailing
garbage.  `none` models `NaN` (no digits parsed at all); the non-finite
literal `Infinity` never occurs in this data set and is also modelled as
`none`. -/
def parseFloatQ (s : String) : Option ℚ :=
  let cs := s.data.dropWhile isWsChar
  let sign : ℚ × List Char :=
    match cs with
    | '+' :: rest => (1, rest)
    | '-' :: rest => (-1, rest)
    | rest => (1, rest)
  let intDs := sign.2.takeWhile Char.isDigit
  let cs2 := sign.2.dropWhile Char.isDigit
  let frac : List Char × List Char :=
    match cs2 with
    | '.' :: rest => (rest.takeWhile Char.isDigit, rest.dropWhile Char.isDigit)
    | _ => ([], cs2)
  if intDs.isEmpty && frac.1.isEmpty then none
  else
    let mant : ℚ :=
      sign.1 * ((digitsVal intDs : ℚ) +
        (digitsVal frac.1 : ℚ) / ((10 : ℚ) ^ frac.1.length))
    let expPart : Int :=
      match frac.2 with
      | 'e' :: '+' :: ds => (digitsVal (ds.takeWhile Char.isDigit) : Int)
      | 'e' :: '-' :: ds => -(digitsVal (ds.takeWhile Char.isDigit) : Int)
      | 'e' :: ds => (digitsVal (ds.takeWhile Char.isDigit) : Int)
      | 'E' :: '+' :: ds => (digitsVal (ds.takeWhile Char.isDigit) : Int)
      | 'E' :: '-' :: ds => -(digitsVal (ds.takeWhile Char.isDigit) : Int)
      | 'E' :: ds => (digitsVal (ds.takeWhile Char.isDigit) : Int)
      | _ => 0
    some (mant * (10 : ℚ) ^ expPart)

/-- JavaScript `String(v).replace(/[$,]/g, '')`: drop every dollar sign
and comma. -/
def stripDollarComma (s : String) : String :=
  String.mk (s.data.filter (fun c => !(c = '$' || c = ',')))

/-- Lexicographic comparison of character lists by code point; the
semantics of the JavaScript `<` / `>` operators on the (ASCII) strings of
this data set. -/
def lexCmpChars : List Char → List Char → Ordering
  | [], [] => .eq
  | [], _ :: _ => .lt
  | _ :: _, [] => .gt
  | a :: as, b :: bs =>
      if a.val < b.val then .lt
      else if b.val < a.val then .gt
      else lexCmpChars as bs

/-- Code-point-lexicographic strict order on strings. -/
def lexLt (a b : String) : Bool :=
  lexCmpChars a.data b.data = Ordering.lt

/-- Sort direction, App.js `sortConfig.order`. -/
inductive SortOrder where
  | asc
  | desc
deriving DecidableEq

/-- The eight canonical column keys of the merged table. -/
inductive ColKey where
  | lastName
  | firstName
  | postalCode
  | city
  | party
  | specificCampaign
  | date
  | donation
deriving DecidableEq

/-- Field lookup `row[key]` for a canonical record. -/
def Record.getCol (r : Record) : ColKey → String
  | .lastName => r.lastName
  | .firstName => r.firstName
  | .postalCode => r.postalCode
  | .city => r.city
  | .party => r.party
  | .specificCampaign => r.specificCampaign
  | .date => r.date
  | .donation => r.donation

/-- The comparator body of `sortData` in App.js, returning a rational
whose sign drives the sort: both values are stripped of dollar signs and
commas and parsed; if both parse the comparator returns the (possibly
flipped) numeric difference, otherwise it compares the original strings
lower-cased, lexicographically by code point, returning -1 / 1 / 0. -/
def jsCompareVals (order : SortOrder) (aVal bVal : String) : ℚ :=
  match parseFloatQ (stripDollarComma aVal),
        parseFloatQ (stripDollarComma bVal) with
  | some aN, some bN =>
      match order with
      | .asc => aN - bN
      | .desc => bN - aN
  | _, _ =>
      let aL := lowerStr aVal
      let bL := lowerStr bVal
      if lexLt aL bL then (match order with | .asc => -1 | .desc => 1)
      else if lexLt bL aL then (match order with | .asc => 1 | .desc => -1)
      else 0

/-- The lexical fallback comparison described by the spec: the two
original (non-stripped) strings, lower-cased, compared lexicographically
by code point, as a -1 / 1 / 0 comparator value with the direction
flipping the sign. -/
def lexFallback (order : SortOrder) (aL bL : String) : ℚ :=
  if lexLt aL bL then (match order with | .asc => -1 | .desc => 1)
  else if lexLt bL aL then (match order with | .asc => 1 | .desc => -1)
  else 0

/-- The record comparator of `sortData` for a chosen column. -/
def recCmpLt (key : ColKey) (order : SortOrder) (a b : Record) : Prop :=
  jsCompareVals order (a.getCol key) (b.getCol key) < 0

instance (key : ColKey) (order : SortOrder) : DecidableRel (recCmpLt key order) :=
  fun a b =>
    inferInstanceAs (Decidable (jsCompareVals order (a.getCol key) (b.getCol key) < 0))

/-- App.js `sortData`: with no selected column the data is returned as
is; otherwise a stably sorted copy (JavaScript `[...data].sort(cmp)` with
a stable engine sort) is returned, realized here by Mathlib insertion
sort over the comparator-is-negative relation. -/
def sortData (key : Option ColKey) (order : SortOrder) (data : List Record) :
    List Record :=
  match key with
  | none => data
  | some k => List.insertionSort (recCmpLt k order) data

/-- The canonical category buckets appearing in App.js: the seven
aggregated totals keys plus the display-only green and atlantica color
rules of `getRowColor`. -/
inductive Bucket where
  | pc
  | cpc
  | lpc
  | nsndp
  | ndp
  | ndpca
  | liberal
  | green
  | atlantica
deriving DecidableEq

/-- The running totals object of `getPartyTotals` in App.js: one rational
per aggregated party key.  Green and atlantica have no key in the source
object and hence no field here. -/
structure Totals where
  pc : ℚ
  cpc : ℚ
  nsndp : ℚ
  ndp : ℚ
  ndpca : ℚ
  liberal : ℚ
  lpc : ℚ
deriving DecidableEq

/-- The zero-initialized totals object. -/
def initTotals : Totals := ⟨0, 0, 0, 0, 0, 0, 0⟩

/-- Totals viewed as a function of bucket; buckets without a key in the
source totals object read as 0. -/
def bucketVal (t : Totals) : Bucket → ℚ
  | .pc => t.pc
  | .cpc => t.cpc
  | .lpc => t.lpc
  | .nsndp => t.nsndp
  | .ndp => t.ndp
  | .ndpca => t.ndpca
  | .liberal => t.liberal
  | .green => 0
  | .atlantica => 0

/-- The parsed donation amount of one record in `getPartyTotals`:
`parseFloat((row.Donation || '0').replace(/[$,]/g, '')) || 0`, i.e. the
empty donation string defaults to "0" and a failed parse contributes 0. -/
def amountOf (r : Record) : ℚ :=
  (parseFloatQ (stripDollarComma
    (if r.donation = "" then "0" else r.donation))).getD 0

/-- The classification chain of `getPartyTotals` as a partial bucket
assignment: the first matching rule of the if/else-if cascade (exact
pc, cpc, nsndp, ndp-ca, ndp on the lower-cased label, then substring
liberal, then substring lpc) determines the bucket; no rule gives
`none`. -/
def classifyAgg (party : String) : Option Bucket :=
  if (lowerStr party) = "pc" then some .pc
  else if (lowerStr party) = "cpc" then some .cpc
  else if (lowerStr party) = "nsndp" then some .nsndp
  else if (lowerStr party) = "ndp-ca" then some .ndpca
  else if (lowerStr party) = "ndp" then some .ndp
  else if strContains (lowerStr party) "liberal" then some .liberal
  else if strContains (lowerStr party) "lpc" then some .lpc
  else none

/-- The loop body of `getPartyTotals` in App.js: the if/else-if cascade
adds the parsed amount of one row to at most one field of the totals
object ("first match wins"). -/
def getPartyTotalsStep (t : Totals) (r : Record) : Totals :=
  if (lowerStr r.party) = "pc" then { t with pc := t.pc + amountOf r }
  else if (lowerStr r.party) = "cpc" then { t with cpc := t.cpc + amountOf r }
  else if (lowerStr r.party) = "nsndp" then { t with nsndp := t.nsndp + amountOf r }
  else if (lowerStr r.party) = "ndp-ca" then { t with ndpca := t.ndpca + amountOf r }
  else if (lowerStr r.party) = "ndp" then { t with ndp := t.ndp + amountOf r }
  else if strContains (lowerStr r.party) "liberal" then
    { t with liberal := t.liberal + amountOf r }
  else if strContains (lowerStr r.party) "lpc" then
    { t with lpc := t.lpc + amountOf r }
  else t

/-- App.js `getPartyTotals`: fold the per-row cascade over the data,
starting from the all-zero totals object. -/
def getPartyTotals (data : List Record) : Totals :=
  data.foldl getPartyTotalsStep initTotals

/-- App.js `getRowColor`: exact matches for cpc, lpc, pc on the
lower-cased label, then substring rules for liberal, ndp, green,
atlantica; the empty string means no color. -/
def getRowColor (partyValue : String) : String :=
  if (lowerStr partyValue) = "cpc" then "#639ee0"
  else if (lowerStr partyValue) = "lpc" then "#9d0001"
  else if (lowerStr partyValue) = "pc" then "#00becf"
  else if strContains (lowerStr partyValue) "liberal" then "red"
  else if strContains (lowerStr partyValue) "ndp" then "orange"
  else if strContains (lowerStr partyValue) "green" then "green"
  else if strContains (lowerStr partyValue) "atlantica" then "purple"
  else ""

/-- The rule of `getRowColor` that fires for a label, as a bucket: the
same cascade as `getRowColor` with each branch recorded as its category
instead of its color. -/
def colorBucket (partyValue : String) : Option Bucket :=
  if (lowerStr partyValue) = "cpc" then some .cpc
  else if (lowerStr partyValue) = "lpc" then some .lpc
  else if (lowerStr partyValue) = "pc" then some .pc
  else if strContains (lowerStr partyValue) "liberal" then some .liberal
  else if strContains (lowerStr partyValue) "ndp" then some .ndp
  else if strContains (lowerStr partyValue) "green" then some .green
  else if strContains (lowerStr partyValue) "atlantica" then some .atlantica
  else none

/-- The color each `getRowColor` rule returns, indexed by the bucket of
the rule that fired (buckets no color rule produces read as no color). -/
def colorHint : Option Bucket → String
  | some .cpc => "#639ee0"
  | some .lpc => "#9d0001"
  | some .pc => "#00becf"
  | some .liberal => "red"
  | some .ndp => "orange"
  | some .green => "green"
  | some .atlantica => "purple"
  | _ => ""

theorem getRowColor_eq_colorHint (s : String) :
    getRowColor s = colorHint (colorBucket s) := by
  unfold getRowColor colorBucket
  split_ifs <;> rfl

/-- One raw row of the federal CSV source, with the columns the map
callback in App.js reads (a missing column is the empty string, matching
the `|| ''` defaults). -/
structure FederalRow where
  lastName : String
  firstName : String
  postalCode : String
  city : String
  party : String
  recipient : String
  dateReceived : String
  monetary : String
deriving DecidableEq

/-- The federal-source map callback of App.js, including its literal
rewrite sequence: the party label is rewritten by containment of the
three full party names; the recipient is rewritten only by the
Conservative containment check, after which the two remaining checks
test and assign the party variable again (a verbatim embedding of the
source). -/
def federalNormalize (row : FederalRow) : Record :=
  let party1 :=
    if strContains row.party "Conservative Party of Canada" then "CPC" else row.party
  let party2 :=
    if strContains party1 "Liberal Party of Canada" then "LPC" else party1
  let party3 :=
    if strContains party2 "New Democratic Party" then "NDP-CA" else party2
  let recipient1 :=
    if strContains row.recipient "Conservative Party of Canada" then "CPC"
    else row.recipient
  let party4 :=
    if strContains party3 "Liberal Party of Canada" then "LPC" else party3
  let party5 :=
    if strContains party4 "New Democratic Party" then "NDP-CA" else party4
  { lastName := row.lastName
    firstName := row.firstName
    postalCode := row.postalCode
    city := row.city
    party := party5
    specificCampaign := recipient1
    date := row.dateReceived
    donation := row.monetary }

/-- C1: classification of a party label follows the fixed exact-then-
substring order of the aggregator cascade: NSNDP lands in the nsndp
bucket (not ndp), NDP-CA lands in the ndpca bucket (not ndp), the plain
label ndp lands in the ndp bucket, and Green Party matches only the
display-only green color rule, contributing nothing to the aggregate
totals. -/
theorem c1_classifier_ordering :
    classifyAgg "NSNDP" = some Bucket.nsndp ∧
    Bucket.nsndp ≠ Bucket.ndp ∧
    classifyAgg "NDP-CA" = some Bucket.ndpca ∧
    Bucket.ndpca ≠ Bucket.ndp ∧
    classifyAgg "ndp" = some Bucket.ndp ∧
    classifyAgg "Green Party" = none ∧
    colorBucket "Green Party" = some Bucket.green ∧
    getRowColor "Green Party" = "green" ∧
    getPartyTotals [⟨"", "", "", "", "Green Party", "", "", "$10"⟩] = initTotals := by
  decide

/-- C2: the if/else-if cascade of `getPartyTotals` fires at most one
rule per record: processing one record adds its parsed amount to exactly
the bucket of the first matching rule (`classifyAgg`) and leaves every
other bucket total unchanged; an unmatched record changes nothing. -/
theorem c2_first_match_wins (t : Totals) (r : Record) (b : Bucket) :
    bucketVal (getPartyTotalsStep t r) b =
      if classifyAgg r.party = some b then bucketVal t b + amountOf r
      else bucketVal t b := by
  unfold getPartyTotalsStep classifyAgg
  split_ifs <;> cases b <;> simp_all [bucketVal]

/-- C3: evaluation of the federal-source map callback at a row whose
category and campaign-recipient fields both hold the full label
Liberal Party of Canada: the category field is rewritten to LPC but the
campaign-recipient field is left unrewritten (only the Conservative
containment check is applied to the recipient; the Liberal and NDP
checks re-test the already-rewritten party variable), while a recipient
holding the full Conservative name is rewritten to CPC. -/
theorem c3_recipient_rewrite_missing :
    (federalNormalize ⟨"Doe", "Jane", "B3H 1A1", "Halifax",
        "Liberal Party of Canada", "Liberal Party of Canada",
        "2020-01-01", "$500"⟩).party = "LPC" ∧
    (federalNormalize ⟨"Doe", "Jane", "B3H 1A1", "Halifax",
        "Liberal Party of Canada", "Liberal Party of Canada",
        "2020-01-01", "$500"⟩).specificCampaign = "Liberal Party of Canada" ∧
    "Liberal Party of Canada" ≠ "LPC" ∧
    (federalNormalize ⟨"Roe", "Ann", "", "Sydney", "",
        "Conservative Party of Canada - Cape Breton", "2021", "$20"⟩).specificCampaign
      = "CPC" := by
  decide

/-- C4 counterexample: a whitespace-only query does not return the empty
result set; on a one-record collection the single-space query returns
that record. -/
theorem c4_whitespace_not_empty :
    filteredData " " [(⟨"Smith", "John", "", "", "", "", "", "$5"⟩ : Record)]
      ≠ [] := by
  decide

/-- C4 amended: searching with the empty query string returns the empty
result set; a whitespace-only query such as a single space is truthy,
splits into empty tokens, and returns the entire collection. -/
theorem c4_empty_query (records : List Record) :
    filteredData "" records = [] ∧ filteredData " " records = records := by
  refine ⟨rfl, ?_⟩
  unfold filteredData
  rw [if_neg (by decide)]
  have hl : lastTokOf " " = "" := by decide
  have hf : firstTokOf " " = "" := by decide
  rw [hl, hf]
  have hp : ∀ r ∈ records, matchesQuery "" "" r = true := by
    intro r _
    simp [matchesQuery, strContains_empty]
  rw [List.filter_congr hp, List.filter_true]

/-- C5: for a non-empty query, the result is exactly the stable filter
of the records by the spec matching rule — lower-cased last name
contains the first token, and, only when a second token is present,
lower-cased first name contains the second token — and is a subsequence
of the input; tokens beyond the second are ignored. -/
theorem c5_search_semantics :
    (∀ (q : String) (records : List Record), q ≠ "" →
      filteredData q records =
        records.filter (fun r =>
          strContains (lowerStr r.lastName) (lastTokOf q) &&
            (firstTokOf q = "" ||
              strContains (lowerStr r.firstName) (firstTokOf q))) ∧
      List.Sublist (filteredData q records) records) ∧
    ∀ records : List Record,
      filteredData "smith john extra" records =
        filteredData "smith john" records := by
  constructor
  · intro q records hq
    constructor
    · unfold filteredData
      rw [if_neg hq]
      apply List.filter_congr
      intro r _
      by_cases h : firstTokOf q = "" <;> simp [matchesQuery, h]
    · unfold filteredData
      rw [if_neg hq]
      exact List.filter_sublist records
  · intro records
    unfold filteredData
    rw [if_neg (by decide), if_neg (by decide)]
    have hl : lastTokOf "smith john extra" = lastTokOf "smith john" := by decide
    have hf : firstTokOf "smith john extra" = firstTokOf "smith john" := by decide
    rw [hl, hf]

/-- C5 witness: the general search characterization applied to the
concrete query Smith John on a two-record collection. -/
theorem c5_search_semantics_witness :
    filteredData "Smith John"
        [(⟨"Smithson", "Johnny", "", "", "", "", "", ""⟩ : Record),
          ⟨"Brown", "John", "", "", "", "", "", ""⟩] =
      [⟨"Smithson", "Johnny", "", "", "", "", "", ""⟩] ∧
    List.Sublist
      (filteredData "Smith John"
        [(⟨"Smithson", "Johnny", "", "", "", "", "", ""⟩ : Record),
          ⟨"Brown", "John", "", "", "", "", "", ""⟩])
      [(⟨"Smithson", "Johnny", "", "", "", "", "", ""⟩ : Record),
        ⟨"Brown", "John", "", "", "", "", "", ""⟩] := by
  have h := c5_search_semantics.1 "Smith John"
    [(⟨"Smithson", "Johnny", "", "", "", "", "", ""⟩ : Record),
      ⟨"Brown", "John", "", "", "", "", "", ""⟩] (by decide)
  exact ⟨h.1.trans (by decide), h.2⟩

/-- C6: the sorter comparator string-coerces both field values, strips
dollar signs and commas, and parses; when both sides parse the
comparison is the numeric difference (direction flipping the sign), and
otherwise it is the code-point-lexicographic comparison of the two
original strings lower-cased; in particular a monetary column sorts
numerically and an all-string pair with one unparseable side falls back
to the lexical rule. -/
theorem c6_numeric_lexical_dispatch :
    (∀ (a b : String) (x y : ℚ),
      parseFloatQ (stripDollarComma a) = some x →
      parseFloatQ (stripDollarComma b) = some y →
      jsCompareVals .asc a b = x - y ∧ jsCompareVals .desc a b = y - x) ∧
    (∀ (a b : String) (order : SortOrder),
      parseFloatQ (stripDollarComma a) = none ∨
        parseFloatQ (stripDollarComma b) = none →
      jsCompareVals order a b = lexFallback order (lowerStr a) (lowerStr b)) ∧
    sortData (some .donation) .asc
        [(⟨"", "", "", "", "", "", "", "$1,200.00"⟩ : Record),
          ⟨"", "", "", "", "", "", "", "$300.50"⟩] =
      [⟨"", "", "", "", "", "", "", "$300.50"⟩,
        ⟨"", "", "", "", "", "", "", "$1,200.00"⟩] ∧
    parseFloatQ (stripDollarComma "apple") = none ∧
    parseFloatQ (stripDollarComma "10") = some 10 ∧
    jsCompareVals .asc "apple" "10" = 1 ∧
    lexLt (lowerStr "10") (lowerStr "apple") = true := by
  refine ⟨?_, ?_, by decide, by decide, by decide, by decide, by decide⟩
  · intro a b x y hx hy
    unfold jsCompareVals
    rw [hx, hy]
    exact ⟨rfl, rfl⟩
  · intro a b order h
    unfold jsCompareVals lexFallback
    cases hpa : parseFloatQ (stripDollarComma a) <;>
      cases hpb : parseFloatQ (stripDollarComma b) <;>
        simp_all

/-- C6 witness: the dispatch theorem applied to the concrete monetary
pair (both sides parse) and to the mixed pair apple / 10 (left side
fails to parse). -/
theorem c6_numeric_lexical_dispatch_witness :
    jsCompareVals .asc "$1,200.00" "$300.50" = 1200 - 601 / 2 ∧
    jsCompareVals .asc "apple" "10" =
      lexFallback .asc (lowerStr "apple") (lowerStr "10") := by
  exact ⟨(c6_numeric_lexical_dispatch.1 "$1,200.00" "$300.50" 1200 (601 / 2)
      (by decide) (by decide)).1,
    c6_numeric_lexical_dispatch.2.1 "apple" "10" .asc (Or.inl (by decide))⟩

/-- C7 counterexample: the aggregator and the display-color resolver do
not classify every label by one shared rule table: the label nsndp is
added to the dedicated nsndp totals bucket, while its row color is
produced by the generic ndp substring rule (orange). -/
theorem c7_two_rule_tables :
    classifyAgg "nsndp" = some Bucket.nsndp ∧
    colorBucket "nsndp" = some Bucket.ndp ∧
    getRowColor "nsndp" = "orange" ∧
    Bucket.nsndp ≠ Bucket.ndp := by
  decide

/-- C7 amended: the aggregator cascade and the color-resolver cascade
are distinct rule tables that agree on the exact labels pc, cpc, lpc and
ndp and on liberal-containing labels, but disagree on nsndp and ndp-ca
(colored by the generic ndp substring rule) and on labels that merely
contain lpc (aggregated to the lpc bucket yet given no color). -/
theorem c7_partial_agreement :
    (classifyAgg "pc" = some Bucket.pc ∧ colorBucket "pc" = some Bucket.pc) ∧
    (classifyAgg "cpc" = some Bucket.cpc ∧ colorBucket "cpc" = some Bucket.cpc) ∧
    (classifyAgg "lpc" = some Bucket.lpc ∧ colorBucket "lpc" = some Bucket.lpc) ∧
    (classifyAgg "ndp" = some Bucket.ndp ∧ colorBucket "ndp" = some Bucket.ndp) ∧
    (classifyAgg "Liberal Party" = some Bucket.liberal ∧
      colorBucket "Liberal Party" = some Bucket.liberal) ∧
    (classifyAgg "nsndp" = some Bucket.nsndp ∧
      colorBucket "nsndp" = some Bucket.ndp) ∧
    (classifyAgg "NDP-CA" = some Bucket.ndpca ∧
      colorBucket "NDP-CA" = some Bucket.ndp) ∧
    (classifyAgg "zzlpc" = some Bucket.lpc ∧ colorBucket "zzlpc" = none) := by
  decide

/-- C8: the aggregator parses each donation by stripping dollars and
commas; a failed parse contributes amount 0 and changes no bucket total
(the record is still classified, nothing is thrown); the three-record
example aggregates to pc = 150 with the Green record contributing
nothing (the totals object has no green key). -/
theorem c8_parse_failure_and_example :
    getPartyTotals
        [(⟨"", "", "", "", "PC", "", "", "$100"⟩ : Record),
          ⟨"", "", "", "", "pc", "", "", "$50.00"⟩,
          ⟨"", "", "", "", "Green", "", "", "$10"⟩]
      = ⟨150, 0, 0, 0, 0, 0, 0⟩ ∧
    getPartyTotals
        [(⟨"", "", "", "", "PC", "", "", "$100"⟩ : Record),
          ⟨"", "", "", "", "pc", "", "", "$50.00"⟩,
          ⟨"", "", "", "", "Green", "", "", "$10"⟩]
      = getPartyTotals
        [(⟨"", "", "", "", "PC", "", "", "$100"⟩ : Record),
          ⟨"", "", "", "", "pc", "", "", "$50.00"⟩] ∧
    ∀ (t : Totals) (r : Record),
      parseFloatQ (stripDollarComma
        (if r.donation = "" then "0" else r.donation)) = none →
      amountOf r = 0 ∧
        ∀ b : Bucket, bucketVal (getPartyTotalsStep t r) b = bucketVal t b := by
  refine ⟨by decide, by decide, ?_⟩
  intro t r h
  have ha : amountOf r = 0 := by
    unfold amountOf
    rw [h]
    rfl
  refine ⟨ha, ?_⟩
  intro b
  unfold getPartyTotalsStep
  split_ifs <;> cases b <;> simp [bucketVal, ha]

/-- C8 witness: the parse-failure clause applied to a record whose
donation string abc fails to parse, at the pc bucket. -/
theorem c8_parse_failure_and_example_witness :
    amountOf ⟨"", "", "", "", "PC", "", "", "abc"⟩ = 0 ∧
    bucketVal (getPartyTotalsStep initTotals
        ⟨"", "", "", "", "PC", "", "", "abc"⟩) Bucket.pc
      = bucketVal initTotals Bucket.pc := by
  have h := c8_parse_failure_and_example.2.2 initTotals
    ⟨"", "", "", "", "PC", "", "", "abc"⟩ (by decide)
  exact ⟨h.1, h.2 Bucket.pc⟩

/-- C9: the sorter is pure over immutable lists — it returns a new
collection that is a permutation of its input (the input list value is
untouched), and with no selected column it is the identity. -/
theorem c9_sort_frame (key : Option ColKey) (order : SortOrder)
    (data : List Record) :
    sortData none order data = data ∧
      List.Perm (sortData key order data) data := by
  refine ⟨rfl, ?_⟩
  cases key with
  | none => exact List.Perm.refl data
  | some k => exact List.perm_insertionSort (recCmpLt k order) data

/-- C10: a non-empty query beginning with whitespace splits into an
empty first token, the empty string is a substring of every (lower-cased)
last name, and hence the query constrains only the first name: the
query " john" returns exactly the records whose lower-cased first name
contains john. -/
theorem c10_leading_whitespace_query :
    (∀ records : List Record,
      filteredData " john" records =
        records.filter (fun r => strContains (lowerStr r.firstName) "john")) ∧
    lastTokOf " john" = "" ∧
    firstTokOf " john" = "john" ∧
    ∀ s : String, strContains s "" = true := by
  refine ⟨?_, by decide, by decide, strContains_empty⟩
  intro records
  unfold filteredData
  rw [if_neg (by decide)]
  have hl : lastTokOf " john" = "" := by decide
  have hf : firstTokOf " john" = "john" := by decide
  rw [hl, hf]
  apply List.filter_congr
  intro r _
  simp [matchesQuery, strContains_empty]

end NSPoli
